import Mathlib

/-!
Verification of the client-side agent loop of the meeting-recorder notebooks.

The development shallowly embeds the code of
`02-interact-and-execute-agent.ipynb` (the tool-call extractor
`get_function_and_payload` and the conversation loop `MeetingAgent.run`)
and the tool-provisioning cell of `01-initialize-and-setup-agent.ipynb`.
Remote services (the chat-completion endpoint, the hosted agent's tool
execution and result retrieval) are modelled as oracles supplied through
an environment record, since the repository treats them as opaque
external collaborators.
-/

/-! ## Characters and low-level string helpers -/

/-- Whitespace characters skipped inside Python literals (space and tab;
newlines cannot occur inside a regex-extracted payload because `.` does
not match a newline). -/
def isWsChar (c : Char) : Bool := c == ' ' || c == '\t'

/-- Drop leading literal whitespace. -/
def skipWs : List Char → List Char
  | [] => []
  | c :: r => if isWsChar c then skipWs r else c :: r

/-- Value of a nonempty string of decimal digits. -/
def digitsToNat (l : List Char) : Nat :=
  l.foldl (fun a c => a * 10 + (c.toNat - 48)) 0

/-! ## Python values

`ast.literal_eval` applied to the payload substring produces a Python
value.  The embedding covers a sound fragment exercised by the
tool-call protocol (see the doc comment on `parseAny`): every payload
the embedded parser accepts is accepted by `ast.literal_eval` with the
same value, while Python-valid forms outside the fragment are
conservatively rejected. -/

/-- Python literal values produced by the payload parser. -/
inductive PyVal where
  | pyStr : String → PyVal
  | pyInt : Int → PyVal
  | pyBool : Bool → PyVal
  | pyNone : PyVal
  | pyDict : List (PyVal × PyVal) → PyVal
  | pyList : List PyVal → PyVal
deriving Repr

/-- Parsing mode: a single value, the inside of a dict after `{`, or the
inside of a list after `[`. -/
inductive PMode where
  | val
  | dictRest
  | listRest
deriving Repr

/-- Intermediate parse results for the three modes. -/
inductive PRes where
  | rv : PyVal → PRes
  | rEntries : List (PyVal × PyVal) → PRes
  | rElems : List PyVal → PRes
deriving Repr

/-- The single-quote character. -/
def squote : Char := Char.ofNat 39

/-- Consume one expected character. -/
def headIs (c : Char) : List Char → Option (List Char)
  | x :: r => if x = c then some r else none
  | [] => none

/-- Characters admitted inside an embedded string literal.  Backslash
is excluded so that no escape sequence is ever accepted (Python would
decode it, or let an escaped quote extend the string past the point
where this scanner stops); newline, carriage return and NUL are
excluded because `ast.literal_eval` rejects them inside a string
literal.  On the admitted content Python performs no decoding, so the
raw content is exactly the Python value. -/
def strContentOk (c : Char) : Bool :=
  !(c == '\\' || c == '\n' || c == '\r' || c == Char.ofNat 0)

/-- Parse a quoted string body after the opening quote `q`: scan up to
the closing quote, consume it, and return the scanned content, which
must be escape-free (see `strContentOk`). -/
def parseStrLit (q : Char) (r : List Char) : Option (PRes × List Char) :=
  if (r.takeWhile (fun c => !(c == q))).all strContentOk then
    (headIs q (r.dropWhile (fun c => !(c == q)))).bind
      (fun r2 => some (.rv (.pyStr ⟨r.takeWhile (fun c => !(c == q))⟩), r2))
  else none

/-- Consume an expected literal keyword tail. -/
def stripLit : List Char → List Char → Option (List Char)
  | [], r => some r
  | k :: ks, c :: r => if c = k then stripLit ks r else none
  | _ :: _, [] => none

/-- Project a parse result onto the single-value shape. -/
def rvOf : Option (PRes × List Char) → Option (PyVal × List Char)
  | some (PRes.rv v, r) => some (v, r)
  | _ => none

/-- Project a parse result onto the dict-entries shape. -/
def entriesOf : Option (PRes × List Char) → Option (List (PyVal × PyVal) × List Char)
  | some (PRes.rEntries es, r) => some (es, r)
  | _ => none

/-- Project a parse result onto the list-elements shape. -/
def elemsOf : Option (PRes × List Char) → Option (List PyVal × List Char)
  | some (PRes.rElems xs, r) => some (xs, r)
  | _ => none

/-- Project a parse result onto a string dictionary key.  Dictionary
keys are restricted to string literals: every payload of the tool-call
protocol uses string keys, and the restriction keeps the embedding
sound — `ast.literal_eval` rejects unhashable keys and identifies
keys such as `True` and `1` that this embedding would keep distinct. -/
def strKeyOf : Option (PRes × List Char) → Option (String × List Char)
  | some (PRes.rv (PyVal.pyStr k), r) => some (k, r)
  | _ => none

/-- Whether a dict entry carries the given string key. -/
def keyIs (k : String) (e : PyVal × PyVal) : Bool :=
  match e.1 with
  | PyVal.pyStr s => s == k
  | _ => false

/-- Parse a run of decimal digits into an integer (negated when `neg`).
A multi-digit run with a leading zero is rejected, as Python's
tokenizer raises `SyntaxError` on literals such as `01`.  (The all-zero
runs `00`, `000`, … that Python does accept are also rejected here — a
deliberate under-approximation, never an over-acceptance.) -/
def parseIntLit (neg : Bool) (r : List Char) : Option (PRes × List Char) :=
  let ds := r.takeWhile Char.isDigit
  if ds.isEmpty then none
  else if ds.head? == some '0' && decide (1 < ds.length) then none
  else
    some (.rv (.pyInt (if neg then -(digitsToNat ds : Int) else (digitsToNat ds : Int))),
      r.dropWhile Char.isDigit)

/-- Fueled recursive-descent parser for a sound fragment of
`ast.literal_eval` on payload strings: every accepted input is accepted
by `ast.literal_eval` with the same value.  The fragment covers
string-keyed dictionaries with pairwise distinct keys, lists,
escape-free single- or double-quoted strings, canonically written
integers (with optional leading minus), `True`, `False` and `None`,
with space/tab between tokens and trailing commas as Python allows.
Python-valid forms outside the fragment — floats, tuples, sets,
escape sequences, numeric underscores, all-zero multi-digit literals,
implicit string concatenation, newlines inside brackets, non-string or
duplicate dictionary keys — are rejected; a `none` result therefore
does not by itself assert that Python raises, and no theorem below
equates the two without separate justification.  `dictRest` is entered
after consuming `{`, `listRest` after `[`. -/
def parseAny : Nat → PMode → List Char → Option (PRes × List Char)
  | 0, _, _ => none
  | f + 1, PMode.val, s =>
    match skipWs s with
    | [] => none
    | c :: w =>
      if c = squote ∨ c = '"' then parseStrLit c w
      else if c = '{' then
        (entriesOf (parseAny f .dictRest w)).bind
          (fun esr => some (.rv (.pyDict esr.1), esr.2))
      else if c = '[' then
        (elemsOf (parseAny f .listRest w)).bind
          (fun xsr => some (.rv (.pyList xsr.1), xsr.2))
      else if c = 'T' then
        (stripLit ['r', 'u', 'e'] w).bind (fun r2 => some (.rv (.pyBool true), r2))
      else if c = 'F' then
        (stripLit ['a', 'l', 's', 'e'] w).bind (fun r2 => some (.rv (.pyBool false), r2))
      else if c = 'N' then
        (stripLit ['o', 'n', 'e'] w).bind (fun r2 => some (.rv .pyNone, r2))
      else if c = '-' then parseIntLit true w
      else if c.isDigit then parseIntLit false (c :: w)
      else none
  | f + 1, PMode.dictRest, s =>
    match skipWs s with
    | [] => none
    | c :: w =>
      if c = '}' then some (.rEntries [], w)
      else
        (strKeyOf (parseAny f .val s)).bind (fun kr =>
          (headIs ':' (skipWs kr.2)).bind (fun w2 =>
            (rvOf (parseAny f .val w2)).bind (fun vr =>
              ((headIs ',' (skipWs vr.2)).bind (fun w3 =>
                (entriesOf (parseAny f .dictRest w3)).bind (fun esr =>
                  if esr.1.any (keyIs kr.1) then none
                  else some (.rEntries ((.pyStr kr.1, vr.1) :: esr.1), esr.2))))
              <|> ((headIs '}' (skipWs vr.2)).bind (fun w3 =>
                some (.rEntries [(.pyStr kr.1, vr.1)], w3))))))
  | f + 1, PMode.listRest, s =>
    match skipWs s with
    | [] => none
    | c :: w =>
      if c = ']' then some (.rElems [], w)
      else
        (rvOf (parseAny f .val s)).bind (fun xr =>
          ((headIs ',' (skipWs xr.2)).bind (fun w2 =>
            (elemsOf (parseAny f .listRest w2)).bind (fun xsr =>
              some (.rElems (xr.1 :: xsr.1), xsr.2))))
          <|> ((headIs ']' (skipWs xr.2)).bind (fun w2 =>
            some (.rElems [xr.1], w2))))

/-- Embedding of `ast.literal_eval` on a payload string: parse one value
of the sound fragment and require that nothing but whitespace remains.
A `some` result means Python returns the same value; a `none` result
means the payload lies outside the fragment (possibly, but not
necessarily, because Python would raise). -/
def pyLiteralEval (s : List Char) : Option PyVal :=
  (rvOf (parseAny (2 * s.length + 2) .val s)).bind
    (fun vr => if (skipWs vr.2).isEmpty then some vr.1 else none)

/-! ## The tool-call regex

`get_function_and_payload` applies
`re.search(r"\[([A-Za-z0-9_\-]+)({.*})\]", content)`: leftmost starting
position; a maximal nonempty run of name characters after `[`; then the
greedy `{.*}` group, whose `.` does not match a newline, followed by
`]` — so the payload extends to the last `}` that is directly followed
by `]` on the line of the opening brace. -/

/-- Characters allowed in a tool name by the regex class `[A-Za-z0-9_\-]`. -/
def isNameChar (c : Char) : Bool := c.isAlphanum || c == '_' || c == '-'

/-- Index of the last occurrence of a `}` directly followed by `]`. -/
def lastBB : List Char → Option Nat
  | [] => none
  | c :: r =>
    if c = '}' ∧ r.head? = some ']' then
      match lastBB r with
      | some k => some (k + 1)
      | none => some 0
    else (lastBB r).map (· + 1)

/-- Attempt of the regex pattern at one starting position: on success,
the captured name and the captured `{...}` payload group. -/
def matchAt : List Char → Option (List Char × List Char)
  | [] => none
  | c :: r =>
    if c = '[' then
      if (r.takeWhile isNameChar).isEmpty then none
      else
        match r.dropWhile isNameChar with
        | [] => none
        | d :: inner =>
          if d = '{' then
            match lastBB (inner.takeWhile (fun x => !(x == '\n'))) with
            | some k =>
              some (r.takeWhile isNameChar,
                '{' :: (inner.takeWhile (fun x => !(x == '\n'))).take (k + 1))
            | none => none
          else none
    else none

/-- Leftmost regex search: the first starting position where `matchAt`
succeeds, scanning left to right as `re.search` does. -/
def regexSearch : List Char → Option (List Char × List Char)
  | [] => none
  | c :: r =>
    match matchAt (c :: r) with
    | some res => some res
    | none => regexSearch r

/-- Whether the text contains a `}` directly followed by `]` — the
token pair the greedy `{.*}]` tail of the regex anchors on. -/
def hasBB : List Char → Bool
  | [] => false
  | c :: r => (c == '}' && r.head? == some ']') || hasBB r

/-- Whether the text contains `[` followed by a nonempty run of name
characters followed by `{` — a competing starting position for the
regex. -/
def hasCallOpener : List Char → Bool
  | [] => false
  | c :: r =>
    (c == '[' && !(r.takeWhile isNameChar).isEmpty &&
      (r.dropWhile isNameChar).head? == some '{')
    || hasCallOpener r

/-- Result of `get_function_and_payload` on a reply: the Python function
returns `(None, None)` on no regex match, returns the name and the
`ast.literal_eval` of the payload group on a match, and raises (the
exception propagating to the caller) when `ast.literal_eval` fails.
In the embedding the regex part is exact, so `noMatch` holds exactly
when the program returns `(None, None)`, and `call` is sound: whenever
the embedding yields `call nm v` the program returns that very call.
`parseError` records that the matched payload lies outside the verified
literal fragment; at such a payload the program either raises or
evaluates a literal form (float, set, escaped string, ...) the fragment
omits, so theorems conclude `parseError` only where a separate argument
shows `ast.literal_eval` raises on that payload. -/
inductive ExtractResult where
  | noMatch : ExtractResult
  | call : String → PyVal → ExtractResult
  | parseError : ExtractResult
deriving Repr

/-- Core of `get_function_and_payload` on the character list of the
model reply's content. -/
def extractCore (s : List Char) : ExtractResult :=
  match regexSearch s with
  | none => .noMatch
  | some (nm, payload) =>
    match pyLiteralEval payload with
    | some v => .call ⟨nm⟩ v
    | none => .parseError

/-- Embedding of `get_function_and_payload`, applied to
`model_response["choices"][0]["message"]["content"]`. -/
def get_function_and_payload (content : String) : ExtractResult :=
  extractCore content.data

/-! ## The conversation loop (`MeetingAgent.run`)

The loop repeatedly: obtains a model reply, extracts a tool call,
always builds a singleton `ToolCall` list (even when the extractor
returned `(None, None)`), executes it remotely, and sets
`is_finished` when an executed response's `function_name` equals the
sentinel string.  Remote behaviour — the reply stream, the per
iteration `run_tools` responses, the final execution result and the
`random.randint` ids — is an oracle environment.  Token accounting and
printing have no control-flow effect and are omitted. -/

/-- The reserved sentinel tool name checked by the loop. -/
def sentinelName : String := "xpfinish-agent-execution-finished"

/-- The `ToolCall` record the loop constructs each iteration
(`name`, `payload`, `tool_call_id`); the type field is always
`ToolCallType.XPANDER` and is omitted. -/
structure ToolInvocation where
  name : Option String
  payload : Option PyVal
  tool_call_id : String
deriving Repr

/-- One response element of `agent.run_tools`; the loop reads
`function_name` (compared with the sentinel) and prints
`status_code`; `is_success` models the payload flag the loop never
consults. -/
structure ToolExecResult where
  function_name : String
  status_code : Nat
  is_success : Bool

/-- The record returned by `agent.retrieve_execution_result()`. -/
structure ExecResult where
  status : String
  result : String
  memory_thread_id : String

/-- Oracle environment for one `MeetingAgent.run` invocation:
per-iteration model reply contents, per-iteration `run_tools`
responses, the final execution result, and the stream of
`random.randint(100000, 999999)` draws. -/
structure Env where
  replies : Nat → String
  toolResults : Nat → List ToolExecResult
  execResult : ExecResult
  callIds : Nat → Nat

/-- The `tool_call_id` string `f"call_{random.randint(100000, 999999)}"`. -/
def mkCallId (n : Nat) : String := "call_" ++ toString n

/-- Extractor output at iteration `k`. -/
def extractAt (env : Env) (k : Nat) : ExtractResult :=
  get_function_and_payload (env.replies k)

/-- Whether the embedding flags iteration `k` as possibly raising: the
extractor matched a payload outside the verified literal fragment (at
such a payload `ast.literal_eval` may raise, aborting the loop).  When
this is `false` the program provably does not raise at iteration `k`:
the extractor either returned a sound `call` or the exact `noMatch`,
so under hypotheses of the form `iterRaises env k = false` the
embedded loop reproduces the program's behaviour exactly. -/
def iterRaises (env : Env) (k : Nat) : Bool :=
  match extractAt env k with
  | .parseError => true
  | _ => false

/-- The `tool_calls` list built at iteration `k`: always a singleton,
with `name=None, payload=None` when the extractor found no match
(the source builds the `ToolCall` unconditionally). Empty only in the
raising case, where control never reaches the construction. -/
def iterToolCalls (env : Env) (k : Nat) : List ToolInvocation :=
  match extractAt env k with
  | .call n p => [⟨some n, some p, mkCallId (env.callIds k)⟩]
  | .noMatch => [⟨none, none, mkCallId (env.callIds k)⟩]
  | .parseError => []

/-- Whether an executed response of iteration `k` carries the sentinel
function name (`str(response.function_name) == "xpfinish-agent-execution-finished"`). -/
def iterFinishes (env : Env) (k : Nat) : Bool :=
  (env.toolResults k).any (fun r => r.function_name == sentinelName)

/-- Loop state: still running, exited normally (`is_finished = True`),
or aborted by an uncaught exception. -/
inductive LoopStatus where
  | running
  | finished
  | raised
deriving DecidableEq, Repr

/-- State of the `while not is_finished` loop after `n` iterations. -/
def loopStatus (env : Env) : Nat → LoopStatus
  | 0 => .running
  | n + 1 =>
    match loopStatus env n with
    | .running =>
      if iterRaises env n then .raised
      else if iterFinishes env n then .finished
      else .running
    | st => st

/-- The tool-call list passed to `agent.run_tools` at iteration `k`,
`none` when iteration `k` is never reached or raises before the call. -/
def executedToolCalls (env : Env) (k : Nat) : Option (List ToolInvocation) :=
  match loopStatus env k with
  | .running => if iterRaises env k then none else some (iterToolCalls env k)
  | _ => none

/-- The pair `(result_text, thread_id)` the driver returns after the
loop: both fields come from `agent.retrieve_execution_result()`. -/
def runReturn (env : Env) : String × String :=
  (env.execResult.result, env.execResult.memory_thread_id)

/-- Driver output when the loop has exited normally within `n`
iterations, `none` otherwise. -/
def runOutput (env : Env) (n : Nat) : Option (String × String) :=
  if loopStatus env n = .finished then some (runReturn env) else none

/-- The fixed default task `task = prompt or "Please check the status
of all recorded meetings."`. -/
def defaultTask : String := "Please check the status of all recorded meetings."

/-- Task string actually submitted: Python `or` substitutes the default
for both `None` and the empty (falsy) string. -/
def taskOf (prompt : Option String) : String :=
  match prompt with
  | some p => if p = "" then defaultTask else p
  | none => defaultTask

/-- Thread id placed in the outgoing request:
`thread_id if thread_id else None` maps the empty (falsy) string to
`None`. -/
def sentThread (threadId : Option String) : Option String :=
  match threadId with
  | some t => if t = "" then none else some t
  | none => none

/-- The outgoing `agent.add_task(input=task, thread_id=...)` request. -/
structure TaskRequest where
  input : String
  thread_id : Option String
deriving DecidableEq, Repr

/-- The task-creation request built by `MeetingAgent.run`. -/
def outgoingRequest (prompt threadId : Option String) : TaskRequest :=
  ⟨taskOf prompt, sentThread threadId⟩

/-! ## Tool provisioning (`01-initialize-and-setup-agent.ipynb`)

The provisioning cell iterates over the configured tools, skipping a
tool whose `internal_name` is empty or already attached, matching the
configured interface name case-insensitively as a substring of a
remote interface's lower-cased display name, and matching the remote
operation by `id_to_use_on_graph`; unmatched tools are collected into
`missing` and the loop continues. -/

/-- Lower-case a character list, as Python `str.lower()` does on the
ASCII names involved. -/
def lowerL (l : List Char) : List Char := l.map Char.toLower

/-- Whether `needle` is a prefix of `hay` (helper for the substring
check). -/
def prefCheck : List Char → List Char → Bool
  | [], _ => true
  | _ :: _, [] => false
  | a :: as, b :: bs => a == b && prefCheck as bs

/-- Python's `needle in hay` substring test on strings. -/
def containsSub (needle : List Char) : List Char → Bool
  | [] => prefCheck needle []
  | c :: rest => prefCheck needle (c :: rest) || containsSub needle rest

/-- A remote operation handle: `id_to_use_on_graph` is optional because
the source probes it with `hasattr`. -/
structure RemoteOp where
  id_to_use_on_graph : Option String
  opName : String
deriving DecidableEq, Repr

/-- Remote state seen by the provisioning cell: interface display names
in retrieval order, the operations of each interface (keyed by the
lower-cased dict key), and the names of already-attached tools. -/
structure ProvEnv where
  interfaceNames : List String
  operationsOf : String → List RemoteOp
  existingTools : List String

/-- Keys of a Python dict built by repeated insertion: first-occurrence
order with duplicates collapsed. -/
def dedupFirst : List String → List String
  | [] => []
  | k :: rest => k :: (dedupFirst rest).filter (fun x => !(x == k))

/-- The keys of the `interfaces` dict: lower-cased display names in
first-insertion order. -/
def interfaceKeys (env : ProvEnv) : List String :=
  dedupFirst (env.interfaceNames.map (fun n => ⟨lowerL n.data⟩))

/-- One entry of the configuration's `tools` list. -/
structure ToolConfig where
  interface : String
  internal_name : String
deriving DecidableEq, Repr

/-- One iteration of the `for tool_config in tools` provisioning loop,
transforming the accumulated `(to_add, missing)` state. -/
def provisionStep (env : ProvEnv) (st : List RemoteOp × List String)
    (tc : ToolConfig) : List RemoteOp × List String :=
  let iname := lowerL tc.interface.data
  let internal := tc.internal_name
  if internal = "" then st
  else if env.existingTools.contains internal then st
  else
    match (interfaceKeys env).find? (fun n => containsSub iname n.data) with
    | none => (st.1, st.2 ++ [internal])
    | some key =>
      match (env.operationsOf key).find?
          (fun op => op.id_to_use_on_graph == some internal) with
      | some op => (st.1 ++ [op], st.2)
      | none => (st.1, st.2 ++ [internal])

/-- The full provisioning loop over the configured tools, producing the
final `(to_add, missing)` pair. -/
def provision (env : ProvEnv) (tools : List ToolConfig) :
    List RemoteOp × List String :=
  tools.foldl (provisionStep env) ([], [])

/-! ## Concrete environments used by witnesses and counterexamples -/

/-- Environment in which every model reply carries a malformed payload,
so the first iteration raises. -/
def envC1cex : Env :=
  ⟨fun _ => "[foo\x7bnot valid\x7d]", fun _ => [], ⟨"COMPLETED", "", ""⟩, fun _ => 0⟩

/-- Environment whose replies never contain a tool call and whose tool
executions never return the sentinel. -/
def envC1wit : Env :=
  ⟨fun _ => "Nothing to do.", fun _ => [], ⟨"COMPLETED", "", ""⟩, fun _ => 0⟩

/-- Environment with tool-call-free replies, used to exercise the
`(None, None)` invocation path. -/
def envC3wit : Env :=
  ⟨fun _ => "I will not call a tool.", fun _ => [], ⟨"COMPLETED", "done", "t-1"⟩,
    fun _ => 123456⟩

/-- Environment whose first tool execution returns the sentinel with
`is_success = False`. -/
def envC4wit : Env :=
  ⟨fun _ => "All done.", fun _ => [⟨sentinelName, 200, false⟩],
    ⟨"COMPLETED", "done", "t-1"⟩, fun _ => 0⟩

/-- Environment that finishes on the first iteration and whose stored
execution result carries thread id `thread-1`. -/
def envC8wit : Env :=
  ⟨fun _ => "All done.", fun _ => [⟨sentinelName, 200, true⟩],
    ⟨"COMPLETED", "ok", "thread-1"⟩, fun _ => 0⟩

/-- Provisioning state with no remote interfaces and `t1` already
attached. -/
def provEnvC9cex : ProvEnv := ⟨[], fun _ => [], ["t1"]⟩

/-- Provisioning state exposing one remote interface and no
operations. -/
def provEnvC9wit : ProvEnv := ⟨["Google Calendar"], fun _ => [], []⟩

/-- Claim C1 as stated: the loop reaches FINISHED only on the sentinel,
and when no executed tool result ever carries the sentinel the loop
never terminates (it stays running forever). -/
def ClaimC1 : Prop :=
  (∀ env : Env, ∀ n, loopStatus env n = .finished →
    ∃ k, k < n ∧ iterFinishes env k = true) ∧
  (∀ env : Env, (∀ k, iterFinishes env k = false) →
    ∀ n, loopStatus env n = .running)

/-! # Helper lemmas -/

/-- Membership in the deduplicated key list implies membership in the
original list. -/
theorem dedupFirst_mem {x : String} : ∀ {l : List String},
    x ∈ dedupFirst l → x ∈ l := by
  intro l
  induction l with
  | nil => intro h; exact absurd h (by simp [dedupFirst])
  | cons k rest ih =>
    intro h
    rcases (by simpa [dedupFirst] using h : x = k ∨ (x ∈ dedupFirst rest ∧ ¬x = k)) with h1 | h1
    · simp [h1]
    · exact List.mem_cons_of_mem _ (ih h1.1)

/-- If the regex attempt fails at every starting position, the search
fails. -/
theorem regexSearch_none : ∀ s : List Char,
    (∀ n, n < s.length → matchAt (s.drop n) = none) → regexSearch s = none := by
  intro s
  induction s with
  | nil => intro _; rfl
  | cons c r ih =>
    intro h
    have h0 : matchAt (c :: r) = none := h 0 (by simp)
    have hr : regexSearch r = none := by
      refine ih (fun n hn => ?_)
      have := h (n + 1) (by simpa using Nat.succ_lt_succ hn)
      simpa using this
    simp [regexSearch, h0, hr]

/-! # Claim C1 -/

/-- C1, as stated, is false: a malformed payload makes the extractor
raise, and the uncaught exception terminates the loop even though no
executed tool result ever carried the sentinel name.  In `envC1cex`
every reply is `[foo{not valid}]`; the regex embedding is exact, so
the program's match captures the payload `{not valid}`, on which
`ast.literal_eval` raises `ValueError` (`not valid` is a unary-`not`
expression, not a literal) — after one iteration the loop is no
longer running. -/
theorem c1_counterexample : ¬ ClaimC1 := by
  rintro ⟨-, hb⟩
  have h1 := hb envC1cex (fun k => rfl) 1
  have h2 : loopStatus envC1cex 1 = .raised := by decide
  rw [h2] at h1
  exact LoopStatus.noConfusion h1

/-- C1 amended: the loop state becomes FINISHED only upon observing the
sentinel function name in an executed tool's result, and in every run
in which no executed tool result carries the sentinel name and every
iteration's reply either matches no tool-call pattern or carries a
payload in the verified literal fragment (`iterRaises env k = false`,
under which the embedded loop reproduces the program exactly, since
`call` is sound and `noMatch` exact), the loop never terminates —
there is no iteration cap. -/
theorem c1_finished_only_on_sentinel :
    (∀ env : Env, ∀ n, loopStatus env n = .finished →
      ∃ k, k < n ∧ iterFinishes env k = true) ∧
    (∀ env : Env, (∀ k, iterRaises env k = false) →
      (∀ k, iterFinishes env k = false) →
      ∀ n, loopStatus env n = .running) := by
  constructor
  · intro env n
    induction n with
    | zero => intro h; exact absurd h (by simp [loopStatus])
    | succ n ih =>
      intro h
      rcases hprev : loopStatus env n with _ | _ | _
      · simp only [loopStatus, hprev] at h
        by_cases hr : iterRaises env n
        · rw [if_pos hr] at h; exact LoopStatus.noConfusion h
        · rw [if_neg hr] at h
          by_cases hf : iterFinishes env n
          · exact ⟨n, Nat.lt_succ_self n, hf⟩
          · rw [if_neg hf] at h
            exact LoopStatus.noConfusion h
      · obtain ⟨k, hk, hkf⟩ := ih hprev
        exact ⟨k, Nat.lt_succ_of_lt hk, hkf⟩
      · simp only [loopStatus, hprev] at h
        exact LoopStatus.noConfusion h
  · intro env hr hf n
    induction n with
    | zero => rfl
    | succ n ih => simp [loopStatus, ih, hr n, hf n]

/-- Witness for the amended C1: in an environment with neither parse
errors nor sentinel results, the loop is still running after five
iterations. -/
theorem c1_witness : loopStatus envC1wit 5 = .running :=
  c1_finished_only_on_sentinel.2 envC1wit (fun _ => rfl) (fun _ => rfl) 5

/-! # Claim C3 -/

/-- C3: in every iteration the loop reaches with the extractor finding
no bracketed tool call, the driver still constructs exactly one
`ToolCall` with `name=None` and `payload=None` and passes it to
`agent.run_tools` (the guard `if tool_calls:` is always true for the
unconditionally-built singleton list).  The hypothesis
`loopStatus env k = .running` is program-true: it forces
`iterRaises env j = false` at every earlier iteration, each of which
the embedding reproduces exactly, so the program really reaches
iteration `k`; `noMatch` itself is exact. -/
theorem c3_none_invocation_executed (env : Env) (k : Nat)
    (hrun : loopStatus env k = .running)
    (hnm : extractAt env k = .noMatch) :
    executedToolCalls env k = some [⟨none, none, mkCallId (env.callIds k)⟩] := by
  have hr : iterRaises env k = false := by simp [iterRaises, hnm]
  have ht : iterToolCalls env k = [⟨none, none, mkCallId (env.callIds k)⟩] := by
    simp [iterToolCalls, hnm]
  simp [executedToolCalls, hrun, hr, ht]

/-- Witness for C3 at a concrete environment whose reply contains no
bracketed call. -/
theorem c3_witness :
    executedToolCalls envC3wit 0 = some [⟨none, none, mkCallId 123456⟩] :=
  c3_none_invocation_executed envC3wit 0 rfl rfl

/-! # Claim C4 -/

/-- C4: whenever an executed tool result of a reached, non-raising
iteration has `function_name` equal to the sentinel string, the loop
transitions to FINISHED after that iteration, irrespective of the
result's `is_success` flag, status code, or any other field (the
result `r` below is arbitrary apart from its `function_name`).  As in
C3, `loopStatus env k = .running` together with
`iterRaises env k = false` confines the run to iterations the
embedding reproduces exactly, so the FINISHED transition is
program-true. -/
theorem c4_sentinel_finishes (env : Env) (k : Nat) (r : ToolExecResult)
    (hrun : loopStatus env k = .running)
    (hnr : iterRaises env k = false)
    (hmem : r ∈ env.toolResults k)
    (hs : r.function_name = sentinelName) :
    loopStatus env (k + 1) = .finished := by
  have hf : iterFinishes env k = true := by
    simp only [iterFinishes, List.any_eq_true]
    exact ⟨r, hmem, by simp [hs]⟩
  simp [loopStatus, hrun, hnr, hf]

/-- Witness for C4: the sentinel result carries `is_success = False`,
and the loop still finishes after the first iteration. -/
theorem c4_witness : loopStatus envC4wit 1 = .finished :=
  c4_sentinel_finishes envC4wit 0 ⟨sentinelName, 200, false⟩ rfl rfl
    (by simp [envC4wit]) rfl

/-! # Claim C7 -/

/-- C7: when no position of the reply's content starts a match of the
bracketed tool-call pattern, the extractor returns the no-match result
`(None, None)` — in particular it does not raise. -/
theorem c7_no_match_returns_none (s : List Char)
    (h : ∀ n, n < s.length → matchAt (s.drop n) = none) :
    extractCore s = .noMatch := by
  have hs : regexSearch s = none := regexSearch_none s h
  simp [extractCore, hs]

/-- Witness for C7 on a concrete pattern-free reply. -/
theorem c7_witness : extractCore ("The schedule is clear.".data) = .noMatch :=
  c7_no_match_returns_none ("The schedule is clear.".data) (by decide)

/-! # Claim C8 -/

/-- C8, as stated, is false at the empty thread id: the source guards
the outgoing request with `thread_id if thread_id else None`, so a
supplied (but falsy) empty-string thread id is replaced by `None`
rather than included in the task-creation request. -/
theorem c8_counterexample :
    (outgoingRequest none (some "")).thread_id = none ∧
      (none : Option String) ≠ some "" := by
  exact ⟨rfl, by simp⟩

/-- C8 amended: for every invocation with a non-empty prior thread id
supplied, that id is included in the outgoing task-creation request;
and — the remote platform being modelled as an oracle whose stored
execution result realises the spec's thread-continuity contract, i.e.
its `memory_thread_id` equals the supplied id — the
`(result_text, thread_id)` pair returned when the loop has finished
carries exactly that id.  The driver keeps no local state of its own:
the returned pair is a function of the environment alone.  The
hypothesis `loopStatus env n = .finished` is program-true: every
iteration up to and including the finishing one has
`iterRaises = false`, a regime the embedding reproduces exactly. -/
theorem c8_thread_continuity (env : Env) (p : Option String) (t : String)
    (n : Nat) (ht : t ≠ "")
    (hcont : env.execResult.memory_thread_id = t)
    (hfin : loopStatus env n = .finished) :
    (outgoingRequest p (some t)).thread_id = some t ∧
      runOutput env n = some (env.execResult.result, t) := by
  constructor
  · simp [outgoingRequest, sentThread, ht]
  · simp [runOutput, hfin, runReturn, hcont]

/-- Witness for the amended C8 with thread id `thread-1`. -/
theorem c8_witness :
    (outgoingRequest none (some "thread-1")).thread_id = some "thread-1" ∧
      runOutput envC8wit 1 = some ("ok", "thread-1") :=
  c8_thread_continuity envC8wit none "thread-1" 1 (by simp) rfl rfl

/-! # Claim C9 -/

/-- C9, as stated, is false: a configured tool whose interface matches
no remote interface is not appended to `missing` when its internal
name is already among the attached tools — the `already exists` check
short-circuits before the interface lookup.  Here `t1` is attached,
the interface list is empty, and provisioning ends with an empty
`missing` list. -/
theorem c9_counterexample :
    provision provEnvC9cex [⟨"zzz", "t1"⟩] = ([], []) := by
  decide

/-- C9 amended: for every configured tool with a non-empty internal
name that is not already attached, if its interface has no
case-insensitive substring match among the remote interfaces, or the
matched interface exposes no operation whose `id_to_use_on_graph`
equals the internal name, then the tool is skipped (`to_add` is
unchanged), its internal name is appended to `missing`, and the
provisioning fold simply continues with the remaining tools. -/
theorem c9_missing_tool_skipped (env : ProvEnv)
    (toAdd : List RemoteOp) (missing : List String) (tc : ToolConfig)
    (pre post : List ToolConfig)
    (hne : tc.internal_name ≠ "")
    (hnex : env.existingTools.contains tc.internal_name = false)
    (hmatch :
      (∀ nm ∈ env.interfaceNames,
        containsSub (lowerL tc.interface.data) (lowerL nm.data) = false) ∨
      (∃ key, (interfaceKeys env).find?
            (fun n => containsSub (lowerL tc.interface.data) n.data) = some key ∧
          (env.operationsOf key).find?
            (fun op => op.id_to_use_on_graph == some tc.internal_name) = none)) :
    provisionStep env (toAdd, missing) tc = (toAdd, missing ++ [tc.internal_name]) ∧
      provision env (pre ++ tc :: post) =
        post.foldl (provisionStep env) (provisionStep env (provision env pre) tc) := by
  refine ⟨?_, by simp [provision, List.foldl_append]⟩
  have hmem : tc.internal_name ∉ env.existingTools := by simpa using hnex
  rcases hmatch with hnone | ⟨key, hkey, hop⟩
  · have hfind : (interfaceKeys env).find?
        (fun n => containsSub (lowerL tc.interface.data) n.data) = none := by
      rw [List.find?_eq_none]
      intro key hkeymem
      obtain ⟨nm, hnm, hklower⟩ := by
        simpa [interfaceKeys] using dedupFirst_mem hkeymem
      have := hnone nm hnm
      simp [← hklower, this]
    simp [provisionStep, hne, hmem, hfind]
  · simp [provisionStep, hne, hmem, hkey, hop]

/-- Witness for the amended C9: a tool whose interface `slack` matches
no remote interface is appended to `missing` while provisioning
continues (here with no further tools). -/
theorem c9_witness :
    provisionStep provEnvC9wit ([], []) ⟨"slack", "send-message"⟩ =
        ([], ["send-message"]) ∧
      provision provEnvC9wit ([] ++ ⟨"slack", "send-message"⟩ :: []) =
        List.foldl (provisionStep provEnvC9wit)
          (provisionStep provEnvC9wit (provision provEnvC9wit []) ⟨"slack", "send-message"⟩) [] :=
  c9_missing_tool_skipped provEnvC9wit [] [] ⟨"slack", "send-message"⟩ [] []
    (by simp) rfl (Or.inl (by decide))

/-! # Claim C10 -/

/-- C10, as stated, is false at the empty prompt: `prompt or default`
substitutes the default task for the falsy empty string as well, so
the non-`None` prompt `""` is not used verbatim. -/
theorem c10_counterexample :
    (outgoingRequest (some "") none).input = defaultTask ∧ defaultTask ≠ "" :=
  ⟨rfl, by simp [defaultTask]⟩

/-- C10 amended: a `None` (omitted) prompt and the empty prompt are
both replaced by the fixed default task string; every non-empty prompt
is submitted verbatim. -/
theorem c10_default_prompt (tid : Option String) (p : String) (hp : p ≠ "") :
    (outgoingRequest (some p) tid).input = p ∧
      (outgoingRequest none tid).input = defaultTask ∧
      (outgoingRequest (some "") tid).input = defaultTask := by
  refine ⟨?_, rfl, rfl⟩
  simp [outgoingRequest, taskOf, hp]

/-- Witness for the amended C10 at a concrete non-empty prompt. -/
theorem c10_witness :
    (outgoingRequest (some "What can you do?") none).input = "What can you do?" ∧
      (outgoingRequest none none).input = defaultTask ∧
      (outgoingRequest (some "") none).input = defaultTask :=
  c10_default_prompt none "What can you do?" (by simp)

/-! # Parser unfolding and projection lemmas -/

/-- `takeWhile` and `dropWhile` over an append when scanning stops
inside the left part. -/
theorem twAppendStop {p : Char → Bool} : ∀ (l t : List Char), l.dropWhile p ≠ [] →
    (l ++ t).takeWhile p = l.takeWhile p ∧ (l ++ t).dropWhile p = l.dropWhile p ++ t := by
  intro l
  induction l with
  | nil => intro t h; simp at h
  | cons c r ih =>
    intro t h
    by_cases hc : p c
    · have h2 := ih t (by simpa [List.dropWhile_cons, hc] using h)
      simp [List.takeWhile_cons, List.dropWhile_cons, hc, h2.1, h2.2]
    · simp [List.takeWhile_cons, List.dropWhile_cons, hc]

/-- `takeWhile` and `dropWhile` over an append when the whole left part
satisfies the predicate. -/
theorem twAppendAll {p : Char → Bool} : ∀ (l t : List Char), (∀ c ∈ l, p c = true) →
    (l ++ t).takeWhile p = l ++ t.takeWhile p ∧ (l ++ t).dropWhile p = t.dropWhile p := by
  intro l
  induction l with
  | nil => intro t _; simp
  | cons c r ih =>
    intro t h
    have hc : p c = true := h c (by simp)
    have h2 := ih t (fun x hx => h x (List.mem_cons_of_mem _ hx))
    simp [List.takeWhile_cons, List.dropWhile_cons, hc, h2.1, h2.2]

/-- A list whose `dropWhile` is empty satisfies the predicate
throughout. -/
theorem dropWhile_nil_all {p : Char → Bool} : ∀ (l : List Char), l.dropWhile p = [] →
    ∀ c ∈ l, p c = true := by
  intro l
  induction l with
  | nil => intro _ c hc; simp at hc
  | cons x r ih =>
    intro h c hc
    by_cases hx : p x
    · rcases List.mem_cons.mp hc with h1 | h1
      · rw [h1]; exact hx
      · exact ih (by simpa [List.dropWhile_cons, hx] using h) c h1
    · simp [List.dropWhile_cons, hx] at h

/-- Without any `}]` pair, `lastBB` finds nothing. -/
theorem lastBB_none : ∀ q : List Char, hasBB q = false → lastBB q = none := by
  intro q
  induction q with
  | nil => intro _; rfl
  | cons c r ih =>
    intro h
    have hcond : ¬(c = '}' ∧ r.head? = some ']') := by
      rintro ⟨hc, hh⟩
      simp [hasBB, hc, hh] at h
    have h2 : hasBB r = false := by
      cases hb : hasBB r with
      | false => rfl
      | true => simp [hasBB, hb] at h
    rw [lastBB, if_neg hcond, ih h2]
    rfl

/-- The greedy search for the last `}]` pair lands on the final closing
pair when the tail `q` contains no further pair. -/
theorem lastBB_append : ∀ (xs q : List Char), hasBB q = false →
    lastBB (xs ++ '}' :: ']' :: q) = some xs.length := by
  intro xs
  induction xs with
  | nil =>
    intro q h
    have hq : lastBB (']' :: q) = none := by
      apply lastBB_none
      simp [hasBB, h]
    rw [List.nil_append, lastBB, if_pos ⟨rfl, rfl⟩, hq]
    rfl
  | cons c xs' ih =>
    intro q h
    have ihq := ih q h
    by_cases hc : c = '}' ∧ (xs' ++ '}' :: ']' :: q).head? = some ']'
    · rw [List.cons_append, lastBB, if_pos hc, ihq]
      simp
    · rw [List.cons_append, lastBB, if_neg hc, ihq]
      simp

/-- Taking the length of the left part plus `n` from an append. -/
theorem takeLenAppend : ∀ (xs l : List Char) (n : Nat),
    (xs ++ l).take (xs.length + n) = xs ++ l.take n := by
  intro xs
  induction xs with
  | nil => intro l n; simp
  | cons c xs' ih =>
    intro l n
    simp [List.length_cons, Nat.succ_add, ih]

/-- The regex attempt at a well-placed call shape succeeds and captures
the name together with the greedy payload span ending at the last `}]`
pair of the line. -/
theorem matchAt_gen (name xs post : List Char)
    (hn : name ≠ []) (hname : ∀ c ∈ name, isNameChar c = true)
    (hxs : ∀ c ∈ xs, (!(c == '\n')) = true)
    (hpost : hasBB (post.takeWhile (fun x => !(x == '\n'))) = false) :
    matchAt ('[' :: (name ++ '{' :: (xs ++ '}' :: ']' :: post))) =
      some (name, '{' :: (xs ++ ['}'])) := by
  have hpre := twAppendAll (p := isNameChar) name ('{' :: (xs ++ '}' :: ']' :: post)) hname
  have htk : (name ++ '{' :: (xs ++ '}' :: ']' :: post)).takeWhile isNameChar = name := by
    rw [hpre.1]
    simp [List.takeWhile_cons, show isNameChar '{' = false from rfl]
  have hdk : (name ++ '{' :: (xs ++ '}' :: ']' :: post)).dropWhile isNameChar
      = '{' :: (xs ++ '}' :: ']' :: post) := by
    rw [hpre.2]
    simp [List.dropWhile_cons, show isNameChar '{' = false from rfl]
  have hinner := twAppendAll (p := fun x => !(x == '\n')) xs ('}' :: ']' :: post) hxs
  have hline : (xs ++ '}' :: ']' :: post).takeWhile (fun x => !(x == '\n'))
      = xs ++ '}' :: ']' :: (post.takeWhile (fun x => !(x == '\n'))) := by
    rw [hinner.1]
    simp [List.takeWhile_cons]
  have hlb := lastBB_append xs (post.takeWhile (fun x => !(x == '\n'))) hpost
  have hne : name.isEmpty = false := by
    cases name with
    | nil => exact absurd rfl hn
    | cons a b => rfl
  rw [matchAt]
  simp only [htk, hdk, hne, hline, hlb]
  simp [takeLenAppend]

/-- Scanning over a prefix that contains no competing `[name{` opener
reaches the first genuine call position. -/
theorem regexSearch_append_opener : ∀ (pre g : List Char),
    hasCallOpener pre = false →
    regexSearch (pre ++ '[' :: g) = regexSearch ('[' :: g) := by
  intro pre
  induction pre with
  | nil => intro g _; rfl
  | cons c pre' ih =>
    intro g h
    have hsplit := Bool.or_eq_false_iff.mp (by rw [hasCallOpener] at h; exact h)
    obtain ⟨hx, hrec⟩ := hsplit
    have hm : matchAt (c :: (pre' ++ '[' :: g)) = none := by
      rw [matchAt]
      by_cases hc : c = '['
      · rw [if_pos hc]
        cases hd : pre'.dropWhile isNameChar with
        | nil =>
          have hall := dropWhile_nil_all pre' hd
          have h1 := twAppendAll (p := isNameChar) pre' ('[' :: g) hall
          have htk2 : (pre' ++ '[' :: g).takeWhile isNameChar = pre' := by
            rw [h1.1]
            simp [List.takeWhile_cons, show isNameChar '[' = false from rfl]
          have hdk2 : (pre' ++ '[' :: g).dropWhile isNameChar = '[' :: g := by
            rw [h1.2]
            simp [List.dropWhile_cons, show isNameChar '[' = false from rfl]
          rw [htk2, hdk2]
          by_cases hpe : pre'.isEmpty
          · simp [hpe]
          · simp [hpe]
        | cons d rest' =>
          have hne2 : pre'.dropWhile isNameChar ≠ [] := by simp [hd]
          have h1 := twAppendStop (p := isNameChar) pre' ('[' :: g) hne2
          rw [h1.1, h1.2, hd]
          by_cases hpe : (pre'.takeWhile isNameChar).isEmpty
          · simp [hpe]
          · have hdne : ¬(d = '{') := by
              intro hdd
              simp [hc, hd, hdd, hpe] at hx
            simp [hpe, hdne]
      · rw [if_neg hc]
    rw [List.cons_append, regexSearch, hm]
    exact ih g hrec

/-! # Claim C2 -/

/-- C2, as stated, is false: the greedy `{.*}` group extends to the
last `}]` pair on the line, so surrounding prose containing `}]` after
the single well-formed call makes `ast.literal_eval` receive the
overlong span and raise instead of returning the call.  The reply here
is `[a{"x": 1}] see }]`, whose only well-formed bracketed substring is
`[a{"x": 1}]`; the regex embedding is exact, so the program captures
the span `{"x": 1}] see }`, and `ast.literal_eval` on it parses the
dictionary and then raises `SyntaxError` on the stray unmatched `]`
(the dictionary literal is in the verified fragment, so Python reads
it exactly as the embedding does). -/
theorem c2_counterexample :
    extractCore (("[a\x7b\"x\": 1\x7d] see \x7d]").data) = .parseError ∧
      ExtractResult.parseError ≠
        ExtractResult.call "a" (.pyDict [(.pyStr "x", .pyInt 1)]) := by
  exact ⟨rfl, fun hcon => ExtractResult.noConfusion hcon⟩

/-- C2 amended: for every model reply containing a well-formed
`[name{mapping}]` call whose mapping literal contains no newline and
lies in the verified literal fragment (`hval`), provided no competing
`[identifier{` opener occurs earlier in the reply and no further `}]`
pair occurs after the call on its line, the extractor returns that
name and the parsed mapping, regardless of the remaining surrounding
prose or tags.  The conclusion is program-true: the regex embedding is
exact and `hval` is sound, so the program returns the same call with
the same evaluated payload. -/
theorem c2_extractor_single_call (pre name body post : List Char) (v : PyVal)
    (hn : name ≠ []) (hname : ∀ c ∈ name, isNameChar c = true)
    (hbody : ∀ c ∈ body, (!(c == '\n')) = true)
    (hpre : hasCallOpener pre = false)
    (hpost : hasBB (post.takeWhile (fun x => !(x == '\n'))) = false)
    (hval : pyLiteralEval ('{' :: (body ++ ['}'])) = some v) :
    extractCore (pre ++ '[' :: (name ++ '{' :: (body ++ '}' :: ']' :: post))) =
      .call ⟨name⟩ v := by
  have hm := matchAt_gen name body post hn hname hbody hpost
  have hs : regexSearch (pre ++ '[' :: (name ++ '{' :: (body ++ '}' :: ']' :: post)))
      = some (name, '{' :: (body ++ ['}'])) := by
    rw [regexSearch_append_opener pre _ hpre, regexSearch, hm]
  rw [extractCore, hs]
  simp [hval]

/-- Witness for the amended C2 on a concrete reply with prose on both
sides of the call. -/
theorem c2_witness :
    extractCore (("Sure: ").data ++ '[' :: (("get-events").data ++ '{' ::
        ((("\"a\": 1").data) ++ '}' :: ']' :: ((" done").data))) ) =
      .call ⟨("get-events").data⟩ (.pyDict [(.pyStr "a", .pyInt 1)]) :=
  c2_extractor_single_call (("Sure: ").data) (("get-events").data)
    (("\"a\": 1").data) ((" done").data) (.pyDict [(.pyStr "a", .pyInt 1)])
    (by decide) (by decide) (by decide) (by decide) (by decide) rfl

/-! # Claim C5 -/

/-- C5, as stated, is false: a reply can contain a malformed bracketed
substring and still not raise, because the leftmost-greedy search finds
an earlier well-formed call on a previous line (`.` does not cross
newlines).  Reply `[a{"x": 1}]` + newline + `[foo{not valid}]` returns
the first call. -/
theorem c5_counterexample :
    extractCore (("[a\x7b\"x\": 1\x7d]\n[foo\x7bnot valid\x7d]").data) =
        ExtractResult.call "a" (.pyDict [(.pyStr "x", .pyInt 1)]) ∧
      ExtractResult.call "a" (.pyDict [(.pyStr "x", .pyInt 1)]) ≠ .parseError := by
  exact ⟨rfl, fun hcon => ExtractResult.noConfusion hcon⟩

/-- C5 amended: a regex match is never silently swallowed into the
(None, None) no-match result: for every model reply matched by the
tool-call regex, `get_function_and_payload` either returns a parsed
call or raises, never returning (None, None); and on the reply
`[foo{not valid}]` it does raise: the regex embedding is exact, so the
program's match captures the payload `{not valid}`, on which
`ast.literal_eval` raises (`not valid` is a unary-`not` expression,
not a literal), a result distinct from the no-match return. -/
theorem c5_match_never_swallowed :
    (∀ s nm p, regexSearch s = some (nm, p) →
        extractCore s ≠ ExtractResult.noMatch) ∧
      extractCore (("[foo\x7bnot valid\x7d]").data) = .parseError := by
  constructor
  · intro s nm p hm
    rw [extractCore, hm]
    cases hv : pyLiteralEval p <;> simp [hv]
  · rfl

/-- Witness for the amended C5 at the reply `[foo{not valid}]`: the
regex matches it, so the extractor does not return the no-match
result. -/
theorem c5_witness :
    extractCore (("[foo\x7bnot valid\x7d]").data) ≠ ExtractResult.noMatch :=
  c5_match_never_swallowed.1 (("[foo\x7bnot valid\x7d]").data) (("foo").data)
    (("\x7bnot valid\x7d").data) rfl

/-! # Claim C6 -/

